import Mathlib

/-!
Shallow embedding of the go-currency-api repository: the Currency data model
(internal/model/models.go), the repository over the persistent store
(internal/repository, deterministic: the store is a list of rows), the cached
query service (internal/service) over an explicit cache state with an event
trace recording store and cache operations, and the HTTP handler's
status-code logic (internal/handler).
-/

namespace CurrencyApi

/-- UUIDs are modelled as their string form. -/
abbrev UUID := String

/-- `uuid.Nil`, the zero UUID. -/
def uuidNil : UUID := "00000000-0000-0000-0000-000000000000"

/-- The fixed placeholder `created_by` used by the service when none is set
(service.CreateCurrency). -/
def defaultCreatedBy : UUID := "1609b0e1-30c4-402c-a76e-8f5b4d6cfc24"

/-- Currency record (internal/model/models.go). Timestamps are abstract
instants modelled as integers. -/
structure Currency where
  id : UUID
  code : String
  description : String
  amountDisplayFormat : String
  htmlEncodedSymbol : String
  factor : Int
  createdAt : Int
  updatedAt : Int
  createdBy : UUID
deriving Repr, DecidableEq

/-- JSON values, the target of `json.Marshal` on `Currency`, modelled at the
abstract-syntax level (serialisation of the tree to bytes is the standard
library's job). -/
inductive Json where
  | jstr : String → Json
  | jnum : Int → Json
  | jobj : List (String × Json) → Json
  | jarr : List Json → Json
  | jnull : Json

/-- Field lookup in a JSON object. -/
def jlookup : List (String × Json) → String → Option Json
  | [], _ => none
  | (k, v) :: rest, key => if k = key then some v else jlookup rest key

/-- Expect a JSON string. -/
def asString : Json → Option String
  | Json.jstr s => some s
  | _ => none

/-- Expect a JSON number. -/
def asInt : Json → Option Int
  | Json.jnum n => some n
  | _ => none

/-- `json.Marshal` of a `Currency`, with the struct's json tags as keys. -/
def encodeCurrency (c : Currency) : Json :=
  Json.jobj
    [("id", Json.jstr c.id),
     ("code", Json.jstr c.code),
     ("description", Json.jstr c.description),
     ("amount_display_format", Json.jstr c.amountDisplayFormat),
     ("html_encoded_symbol", Json.jstr c.htmlEncodedSymbol),
     ("factor", Json.jnum c.factor),
     ("created_at", Json.jnum c.createdAt),
     ("updated_at", Json.jnum c.updatedAt),
     ("created_by", Json.jstr c.createdBy)]

/-- `json.Unmarshal` into a `Currency`; fails on payloads of the wrong
shape. -/
def decodeCurrency : Json → Option Currency
  | Json.jobj fields => do
    let id ← (jlookup fields "id").bind asString
    let code ← (jlookup fields "code").bind asString
    let description ← (jlookup fields "description").bind asString
    let adf ← (jlookup fields "amount_display_format").bind asString
    let sym ← (jlookup fields "html_encoded_symbol").bind asString
    let factor ← (jlookup fields "factor").bind asInt
    let createdAt ← (jlookup fields "created_at").bind asInt
    let updatedAt ← (jlookup fields "updated_at").bind asInt
    let createdBy ← (jlookup fields "created_by").bind asString
    some ⟨id, code, description, adf, sym, factor, createdAt, updatedAt, createdBy⟩
  | _ => none

/-- `json.Marshal` of a currency list. -/
def encodeCurrencyList (cs : List Currency) : Json :=
  Json.jarr (cs.map encodeCurrency)

/-- `json.Unmarshal` into a currency list. -/
def decodeCurrencyList : Json → Option (List Currency)
  | Json.jarr items => items.mapM decodeCurrency
  | _ => none

/-! ## Cache store (redis client as seen through Get / Set / Del / Keys) -/

/-- The cache state: an association of keys to JSON payloads. -/
abbrev Cache := List (String × Json)

/-- `redisClient.Get`: `some` on hit, `none` on miss. -/
def Cache.lookup : Cache → String → Option Json
  | [], _ => none
  | (k, v) :: rest, key => if k = key then some v else Cache.lookup rest key

/-- `redisClient.Set` with the service's fixed TTL. -/
def Cache.setKV (cache : Cache) (key : String) (v : Json) : Cache :=
  (key, v) :: cache.filter (fun p => p.1 ≠ key)

/-- `redisClient.Del` of one key. -/
def Cache.delKey (cache : Cache) (key : String) : Cache :=
  cache.filter (fun p => p.1 ≠ key)

/-- `redisClient.Keys pattern` followed by `Del` of every match, for a
glob pattern `prefix*`: drop every key starting with the prefix. -/
def Cache.delPrefix (cache : Cache) (pre : String) : Cache :=
  cache.filter (fun p => ¬ (pre.isPrefixOf p.1))

/-- `s.cacheTimeout`: 15 minutes, in nanoseconds (`time.Duration`). -/
def cacheTimeout : Int := 15 * 60 * 1000000000

/-! ## Record Access Layer (internal/repository, CurrencyRepository)

The persistent store is a list of rows. Rows are appended in insertion
order; `GetAll` sorts by code. I/O failures (`StoreError`) cannot arise in
this deterministic model, but the error kind exists in the interface. -/

/-- Error kinds surfaced by the repository / persistent store. -/
inductive RepoErr where
  | notFound
  | conflict
  | storeError
deriving Repr, DecidableEq

/-- Whether a row with the given code exists (the unique index on `code`). -/
def codeExists (store : List Currency) (code : String) : Bool :=
  store.any (fun r => r.code == code)

/-- What the ORM stores on insert: the `BeforeCreate` hook fills a nil `id`
with a fresh UUID, and the auto timestamps are filled when zero. -/
def gormNewRecord (c : Currency) (freshId : UUID) (now : Int) : Currency :=
  { c with
    id := if c.id = uuidNil then freshId else c.id,
    createdAt := if c.createdAt = 0 then now else c.createdAt,
    updatedAt := if c.updatedAt = 0 then now else c.updatedAt }

namespace Repo

/-- `CurrencyRepository.Create`: insert one row; the unique index on `code`
rejects duplicates. -/
def create (store : List Currency) (c : Currency) (freshId : UUID) (now : Int) :
    Except RepoErr (List Currency) :=
  if codeExists store c.code then Except.error RepoErr.conflict
  else Except.ok (store ++ [gormNewRecord c freshId now])

/-- `CurrencyRepository.GetByID`. -/
def getByID (store : List Currency) (id : UUID) : Except RepoErr Currency :=
  match store.find? (fun r => r.id == id) with
  | some r => Except.ok r
  | none => Except.error RepoErr.notFound

/-- `CurrencyRepository.GetByCode`. -/
def getByCode (store : List Currency) (code : String) : Except RepoErr Currency :=
  match store.find? (fun r => r.code == code) with
  | some r => Except.ok r
  | none => Except.error RepoErr.notFound

/-- Insertion into a code-sorted list (for `ORDER BY code ASC`). -/
def insertByCode (c : Currency) : List Currency → List Currency
  | [] => [c]
  | d :: rest =>
    if c.code ≤ d.code then c :: d :: rest else d :: insertByCode c rest

/-- Sort rows by code ascending. -/
def sortByCode : List Currency → List Currency
  | [] => []
  | c :: rest => insertByCode c (sortByCode rest)

/-- `CurrencyRepository.GetAll`: order by code; `OFFSET` only when
`offset > 0`, `LIMIT` only when `limit > 0`. -/
def getAll (store : List Currency) (limit offsetArg : Int) : List Currency :=
  let sorted := sortByCode store
  let afterOffset := if offsetArg > 0 then sorted.drop offsetArg.toNat else sorted
  if limit > 0 then afterOffset.take limit.toNat else afterOffset

/-- The ORM `Updates` with a struct: only non-zero fields of `c` overwrite
the stored row; `updated_at` is auto-set. -/
def gormUpdatesRow (old c : Currency) (now : Int) : Currency :=
  { id := old.id,
    code := if c.code = "" then old.code else c.code,
    description := if c.description = "" then old.description else c.description,
    amountDisplayFormat :=
      if c.amountDisplayFormat = "" then old.amountDisplayFormat else c.amountDisplayFormat,
    htmlEncodedSymbol :=
      if c.htmlEncodedSymbol = "" then old.htmlEncodedSymbol else c.htmlEncodedSymbol,
    factor := if c.factor = 0 then old.factor else c.factor,
    createdAt := if c.createdAt = 0 then old.createdAt else c.createdAt,
    updatedAt := now,
    createdBy := if c.createdBy = uuidNil then old.createdBy else c.createdBy }

/-- `CurrencyRepository.Update`: update rows matching `id = c.id`. Only the
query error is checked — zero rows affected is NOT an error, so updating an
absent id reports success. -/
def update (store : List Currency) (c : Currency) (now : Int) :
    Except RepoErr (List Currency) :=
  Except.ok (store.map (fun r => if r.id == c.id then gormUpdatesRow r c now else r))

/-- `CurrencyRepository.Delete`: delete rows matching the id; zero rows
affected is reported as not-found. -/
def delete (store : List Currency) (id : UUID) : Except RepoErr (List Currency) :=
  let remaining := store.filter (fun r => r.id ≠ id)
  if remaining.length = store.length then Except.error RepoErr.notFound
  else Except.ok remaining

/-- The body of `CurrencyRepository.CreateBatch`'s transaction: insert each
row in turn; the first failure aborts. `fresh n` supplies the fresh UUIDs. -/
def createBatchTx (store : List Currency) (cs : List Currency)
    (fresh : Nat → UUID) (now : Int) : Except RepoErr (List Currency) :=
  match cs with
  | [] => Except.ok store
  | c :: rest =>
    match create store c (fresh 0) now with
    | Except.error e => Except.error e
    | Except.ok store' => createBatchTx store' rest (fun n => fresh (n + 1)) now

/-- `CurrencyRepository.CreateBatch`: empty input returns at once; otherwise
the transaction runs and is rolled back as a whole on failure. Returns the
resulting store and the reported error, if any. -/
def createBatch (store : List Currency) (cs : List Currency)
    (fresh : Nat → UUID) (now : Int) : List Currency × Option RepoErr :=
  match cs with
  | [] => (store, none)
  | _ =>
    match createBatchTx store cs fresh now with
    | Except.ok store' => (store', none)
    | Except.error e => (store, some e)

end Repo

/-! ## Cached Query Service (internal/service, CurrencyService)

Each operation transforms a `World` (persistent store + cache) and records
an event trace: one event per store call, cache read, cache write and cache
delete. Fresh UUIDs and the current instant are explicit parameters. -/

/-- Observable effects of a service call. -/
inductive Ev where
  | storeOp : String → Ev
  | cacheRead : String → Ev
  | cacheWrite : String → Ev
  | cacheDel : String → Ev
deriving Repr, DecidableEq

/-- Combined state of the persistent store and the cache store. -/
structure World where
  store : List Currency
  cache : Cache

/-- Errors surfaced by the service: its own validation messages, or a
wrapped repository error. -/
inductive SvcErr where
  | validation : String → SvcErr
  | repo : RepoErr → SvcErr
deriving Repr, DecidableEq

/-- Single-record cache key: `"currency:code:" + code`. -/
def codeCacheKey (code : String) : String := "currency:code:" ++ code

/-- List cache key: `"currencies:all:" + limit + ":" + offset`. -/
def listCacheKey (limit offsetArg : Int) : String :=
  "currencies:all:" ++ toString limit ++ ":" ++ toString offsetArg

/-- The wildcard prefix used to invalidate every list cache key. -/
def listCachePre : String := "currencies:all:"

/-- `CurrencyService.cacheCurrency`: marshal and store under the key (the
marshal of a currency never fails). -/
def cacheCurrency (cache : Cache) (cacheKey : String) (c : Currency) :
    Cache × List Ev :=
  (Cache.setKV cache cacheKey (encodeCurrency c), [Ev.cacheWrite cacheKey])

/-- `CurrencyService.invalidateCache`: delete the single-record key for the
code, then every key matching `"currencies:all:*"`. -/
def invalidateCache (cache : Cache) (currencyCode : String) : Cache × List Ev :=
  let cacheKey := codeCacheKey currencyCode
  let afterDel := Cache.delKey cache cacheKey
  let afterList := Cache.delPrefix afterDel listCachePre
  (afterList, [Ev.cacheDel cacheKey, Ev.cacheDel listCachePre])

/-- Defaults applied by `CurrencyService.CreateCurrency` before the insert:
`factor` 0 ↦ 100, empty display format ↦ the fixed template, nil
`created_by` ↦ the fixed placeholder. -/
def applyCreateDefaults (c : Currency) : Currency :=
  let c1 := if c.factor = 0 then { c with factor := 100 } else c
  let c2 := if c1.amountDisplayFormat = "" then
      { c1 with amountDisplayFormat := "###,###.##" } else c1
  if c2.createdBy = uuidNil then { c2 with createdBy := defaultCreatedBy } else c2

/-- `CurrencyService.CreateCurrency`: validate, apply defaults, insert,
invalidate the cache for the new code. -/
def CreateCurrency (w : World) (currency : Currency) (freshId : UUID) (now : Int) :
    Except SvcErr Unit × World × List Ev :=
  if currency.code = "" then
    (Except.error (SvcErr.validation "currency code is required"), w, [])
  else if currency.description = "" then
    (Except.error (SvcErr.validation "currency description is required"), w, [])
  else
    let currency := applyCreateDefaults currency
    match Repo.create w.store currency freshId now with
    | Except.error e => (Except.error (SvcErr.repo e), w, [Ev.storeOp "Create"])
    | Except.ok store' =>
      let inv := invalidateCache w.cache currency.code
      (Except.ok (), ⟨store', inv.1⟩, Ev.storeOp "Create" :: inv.2)

/-- `CurrencyService.GetCurrencyByID`: a plain pass-through to the
repository; the cache is never consulted. -/
def GetCurrencyByID (w : World) (id : UUID) :
    Except RepoErr Currency × World × List Ev :=
  (Repo.getByID w.store id, w, [Ev.storeOp "GetByID"])

/-- `CurrencyService.GetCurrencyByCode`: cache-aside read. A cache hit whose
payload decodes is returned as-is; a miss or decode failure falls through to
the repository, whose successful result is cached. -/
def GetCurrencyByCode (w : World) (code : String) :
    Except RepoErr Currency × World × List Ev :=
  let cacheKey := codeCacheKey code
  let fromStore : Except RepoErr Currency × World × List Ev :=
    match Repo.getByCode w.store code with
    | Except.error e =>
      (Except.error e, w, [Ev.cacheRead cacheKey, Ev.storeOp "GetByCode"])
    | Except.ok currency =>
      let cached := cacheCurrency w.cache cacheKey currency
      (Except.ok currency, ⟨w.store, cached.1⟩,
        Ev.cacheRead cacheKey :: Ev.storeOp "GetByCode" :: cached.2)
  match Cache.lookup w.cache cacheKey with
  | some payload =>
    match decodeCurrency payload with
    | some currency => (Except.ok currency, w, [Ev.cacheRead cacheKey])
    | none => fromStore
  | none => fromStore

/-- `CurrencyService.GetAllCurrencies`: only the first page
(`offset == 0 && limit <= 100`) takes the cached path; every other page goes
straight to the repository. -/
def GetAllCurrencies (w : World) (limit offsetArg : Int) :
    Except RepoErr (List Currency) × World × List Ev :=
  if offsetArg = 0 ∧ limit ≤ 100 then
    let cacheKey := listCacheKey limit offsetArg
    let fromStore : Except RepoErr (List Currency) × World × List Ev :=
      let currencies := Repo.getAll w.store limit offsetArg
      let cache' := Cache.setKV w.cache cacheKey (encodeCurrencyList currencies)
      (Except.ok currencies, ⟨w.store, cache'⟩,
        [Ev.cacheRead cacheKey, Ev.storeOp "GetAll", Ev.cacheWrite cacheKey])
    match Cache.lookup w.cache cacheKey with
    | some payload =>
      match decodeCurrencyList payload with
      | some currencies => (Except.ok currencies, w, [Ev.cacheRead cacheKey])
      | none => fromStore
    | none => fromStore
  else
    (Except.ok (Repo.getAll w.store limit offsetArg), w, [Ev.storeOp "GetAll"])

/-- `CurrencyService.UpdateCurrency`: validate, update, invalidate the cache
for the updated code. -/
def UpdateCurrency (w : World) (currency : Currency) (now : Int) :
    Except SvcErr Unit × World × List Ev :=
  if currency.code = "" then
    (Except.error (SvcErr.validation "currency code is required"), w, [])
  else if currency.description = "" then
    (Except.error (SvcErr.validation "currency description is required"), w, [])
  else
    match Repo.update w.store currency now with
    | Except.error e => (Except.error (SvcErr.repo e), w, [Ev.storeOp "Update"])
    | Except.ok store' =>
      let inv := invalidateCache w.cache currency.code
      (Except.ok (), ⟨store', inv.1⟩, Ev.storeOp "Update" :: inv.2)

/-- `CurrencyService.DeleteCurrency`: fetch the record by id to learn its
code, delete it, then invalidate the cache for that code. A failing
pre-fetch aborts the whole operation. -/
def DeleteCurrency (w : World) (id : UUID) :
    Except SvcErr Unit × World × List Ev :=
  match Repo.getByID w.store id with
  | Except.error e => (Except.error (SvcErr.repo e), w, [Ev.storeOp "GetByID"])
  | Except.ok currency =>
    match Repo.delete w.store id with
    | Except.error e =>
      (Except.error (SvcErr.repo e), w, [Ev.storeOp "GetByID", Ev.storeOp "Delete"])
    | Except.ok store' =>
      let inv := invalidateCache w.cache currency.code
      (Except.ok (), ⟨store', inv.1⟩,
        Ev.storeOp "GetByID" :: Ev.storeOp "Delete" :: inv.2)

/-! ## Request Handler status logic (internal/handler, CurrencyHandler)

Each function is the handler's control flow as a pure function of the
request pieces it inspects and the intermediate results it receives. -/

/-- `strings.Contains`: `needle` occurs as a substring of `hay`. -/
def containsSub (hay needle : String) : Bool :=
  (hay.splitOn needle).length > 1

/-- `strings.ToUpper`, applied character by character. -/
def strToUpper (s : String) : String :=
  ⟨s.data.map Char.toUpper⟩

/-- `CurrencyHandler.GetCurrencyByCode`: the resulting HTTP status given the
`:code` path parameter and the service's result. Every service error is
answered with 404. -/
def handlerGetByCodeStatus (codeParam : String)
    (svcResult : Except RepoErr Currency) : Nat :=
  let code := (strToUpper codeParam)
  if code.length ≠ 3 then 400
  else
    match svcResult with
    | Except.error _ => 404
    | Except.ok _ => 200

/-- `CurrencyHandler.UpdateCurrency`: the resulting HTTP status given the
path parameter, whether the JSON body bound, the pre-fetch result and the
service update result. Any update error — a validation error included — is
answered with 500. -/
def handlerUpdateStatus (codeParam : String) (bindOk : Bool)
    (getResult : Except RepoErr Currency) (updResult : Except SvcErr Unit) : Nat :=
  if (strToUpper codeParam).length ≠ 3 then 400
  else if !bindOk then 400
  else
    match getResult with
    | Except.error _ => 404
    | Except.ok _ =>
      match updResult with
      | Except.error _ => 500
      | Except.ok _ => 200

/-- `CurrencyHandler.CreateCurrency`: the resulting HTTP status given
whether the body bound and the service result, whose error text is checked
for the substring "duplicate". -/
def handlerCreateStatus (bindOk : Bool) (createResult : Except String Unit) : Nat :=
  if !bindOk then 400
  else
    match createResult with
    | Except.error msg => if containsSub msg "duplicate" then 409 else 500
    | Except.ok _ => 201

/-- `CurrencyHandler.DeleteCurrency`: the resulting HTTP status given the
path parameter, the by-code pre-fetch result and the delete result. -/
def handlerDeleteStatus (codeParam : String)
    (getResult : Except RepoErr Currency) (delResult : Except SvcErr Unit) : Nat :=
  if (strToUpper codeParam).length ≠ 3 then 400
  else
    match getResult with
    | Except.error _ => 404
    | Except.ok _ =>
      match delResult with
      | Except.error _ => 500
      | Except.ok _ => 200

/-! ## Sample data -/

/-- A fully-populated sample row. -/
def usd : Currency :=
  { id := "11111111-1111-1111-1111-111111111111",
    code := "USD",
    description := "United States Dollar",
    amountDisplayFormat := "###,###.##",
    htmlEncodedSymbol := "&#36;",
    factor := 100,
    createdAt := 1,
    updatedAt := 1,
    createdBy := defaultCreatedBy }

/-- A creation request leaving every defaultable field unset. -/
def newCur : Currency :=
  { id := uuidNil,
    code := "TST",
    description := "Test currency",
    amountDisplayFormat := "",
    htmlEncodedSymbol := "",
    factor := 0,
    createdAt := 0,
    updatedAt := 0,
    createdBy := uuidNil }

/-! ## Cache lemmas -/

theorem decode_encode_currency (c : Currency) :
    decodeCurrency (encodeCurrency c) = some c := rfl

theorem Cache.lookup_filter_none (cache : Cache) (p : String × Json → Bool)
    (key : String) (h : ∀ v, p (key, v) = false) :
    Cache.lookup (cache.filter p) key = none := by
  induction cache with
  | nil => rfl
  | cons e rest ih =>
    rcases e with ⟨k, v⟩
    by_cases hp : p (k, v) = true
    · have hk : ¬ (k = key) := by
        intro hkey
        subst hkey
        rw [h v] at hp
        exact Bool.false_ne_true hp
      rw [List.filter_cons_of_pos hp]
      simpa [Cache.lookup, hk] using ih
    · rw [List.filter_cons_of_neg (by simpa using hp)]
      exact ih

theorem Cache.lookup_filter_of_none (cache : Cache) (p : String × Json → Bool)
    (key : String) (h : Cache.lookup cache key = none) :
    Cache.lookup (cache.filter p) key = none := by
  induction cache with
  | nil => rfl
  | cons e rest ih =>
    rcases e with ⟨k, v⟩
    simp only [Cache.lookup] at h
    by_cases hk : k = key
    · rw [if_pos hk] at h
      exact absurd h (by simp)
    · rw [if_neg hk] at h
      rw [List.filter_cons]
      split
      · simpa [Cache.lookup, hk] using ih h
      · exact ih h

theorem Cache.lookup_setKV_same (cache : Cache) (key : String) (v : Json) :
    Cache.lookup (Cache.setKV cache key v) key = some v := by
  simp [Cache.setKV, Cache.lookup]

/-- What a completed invalidation leaves behind: neither the single-record
key for the code nor any list-prefixed key is present. -/
def cacheInvalidatedFor (cache : Cache) (code : String) : Prop :=
  Cache.lookup cache (codeCacheKey code) = none ∧
  ∀ k, listCachePre.isPrefixOf k = true → Cache.lookup cache k = none

theorem invalidateCache_clears (cache : Cache) (code : String) :
    cacheInvalidatedFor (invalidateCache cache code).1 code := by
  constructor
  · apply Cache.lookup_filter_of_none
    apply Cache.lookup_filter_none
    intro v
    simp
  · intro k hk
    apply Cache.lookup_filter_none
    intro v
    simp [hk]

theorem applyCreateDefaults_eq (c : Currency) :
    applyCreateDefaults c =
      { c with
        factor := if c.factor = 0 then 100 else c.factor,
        amountDisplayFormat :=
          if c.amountDisplayFormat = "" then "###,###.##" else c.amountDisplayFormat,
        createdBy := if c.createdBy = uuidNil then defaultCreatedBy else c.createdBy } := by
  unfold applyCreateDefaults
  by_cases h1 : c.factor = 0 <;> by_cases h2 : c.amountDisplayFormat = "" <;>
    by_cases h3 : c.createdBy = uuidNil <;> simp [h1, h2, h3]

theorem applyCreateDefaults_code (c : Currency) :
    (applyCreateDefaults c).code = c.code := by
  rw [applyCreateDefaults_eq]

/-! ## Claim theorems -/

/-- C10: the service read by id never touches the cache: it delegates to the
Record Access Layer, leaves the world (store and cache) unchanged, and its
trace holds a single store operation — no cache read and no cache write. -/
theorem getByID_bypasses_cache (w : World) (id : UUID) :
    GetCurrencyByID w id = (Repo.getByID w.store id, w, [Ev.storeOp "GetByID"]) := rfl

/-- C5 counterexample: updating a currency whose id is absent (empty store)
reports success, not the NotFound the claim requires. -/
theorem update_absent_id_cex :
    Repo.update [] usd 5 = Except.ok [] ∧
    Repo.update [] usd 5 ≠ Except.error RepoErr.notFound := by
  constructor
  · rfl
  · intro h
    rw [show Repo.update [] usd 5 = Except.ok [] from rfl] at h
    exact Except.noConfusion h

/-- C5 amended: the Record Access Layer's Update on an id absent from the
store reports success and leaves the store unchanged — zero rows affected is
never turned into NotFound. -/
theorem update_absent_id_succeeds (store : List Currency) (c : Currency) (now : Int)
    (h : ∀ r ∈ store, r.id ≠ c.id) :
    Repo.update store c now = Except.ok store := by
  unfold Repo.update
  congr 1
  induction store with
  | nil => rfl
  | cons r rest ih =>
    have hr : (r.id == c.id) = false := by
      simpa using h r (by simp)
    simp only [List.map_cons, hr, if_neg, Bool.false_eq_true, not_false_eq_true,
      if_false]
    rw [ih (fun x hx => h x (by simp [hx]))]

theorem update_absent_id_succeeds_witness :
    Repo.update [] usd 5 = Except.ok [] :=
  update_absent_id_succeeds [] usd 5 (by simp)

/-- C7: the service delete pre-fetches the record by id; when the id is
absent the pre-fetch fails, the operation aborts with an error, no store
delete happens and no cache key is touched — the world is unchanged. -/
theorem delete_prefetch_failure_aborts (w : World) (id : UUID)
    (h : ∀ r ∈ w.store, r.id ≠ id) :
    DeleteCurrency w id =
      (Except.error (SvcErr.repo RepoErr.notFound), w, [Ev.storeOp "GetByID"]) := by
  have hfind : w.store.find? (fun r => r.id == id) = none := by
    rw [List.find?_eq_none]
    intro r hr
    simp [h r hr]
  unfold DeleteCurrency Repo.getByID
  rw [hfind]

theorem delete_prefetch_failure_aborts_witness :
    DeleteCurrency ⟨[], []⟩ usd.id =
      (Except.error (SvcErr.repo RepoErr.notFound), ⟨[], []⟩, [Ev.storeOp "GetByID"]) :=
  delete_prefetch_failure_aborts ⟨[], []⟩ usd.id (by simp)

/-- C1: every successful service write (create, update, delete) to a record
with code C ends with the single-record cache key for C and every key under
the list prefix absent from the cache. -/
theorem writes_invalidate_cache (w : World) (c : Currency) (freshId : UUID)
    (now : Int) (id : UUID) (cur : Currency) (w₁ w₂ w₃ : World)
    (evs₁ evs₂ evs₃ : List Ev) :
    (CreateCurrency w c freshId now = (Except.ok (), w₁, evs₁) →
      cacheInvalidatedFor w₁.cache c.code) ∧
    (UpdateCurrency w c now = (Except.ok (), w₂, evs₂) →
      cacheInvalidatedFor w₂.cache c.code) ∧
    (Repo.getByID w.store id = Except.ok cur →
      DeleteCurrency w id = (Except.ok (), w₃, evs₃) →
      cacheInvalidatedFor w₃.cache cur.code) := by
  refine ⟨?_, ?_, ?_⟩
  · intro h
    simp only [CreateCurrency] at h
    split at h
    · exact absurd h (by simp)
    · split at h
      · exact absurd h (by simp)
      · split at h
        · exact absurd h (by simp)
        · simp only [Prod.mk.injEq] at h
          obtain ⟨-, hw, -⟩ := h
          subst hw
          show cacheInvalidatedFor (invalidateCache w.cache (applyCreateDefaults c).code).1 c.code
          rw [applyCreateDefaults_code]
          exact invalidateCache_clears w.cache c.code
  · intro h
    simp only [UpdateCurrency] at h
    split at h
    · exact absurd h (by simp)
    · split at h
      · exact absurd h (by simp)
      · split at h
        · exact absurd h (by simp)
        · simp only [Prod.mk.injEq] at h
          obtain ⟨-, hw, -⟩ := h
          subst hw
          exact invalidateCache_clears w.cache c.code
  · intro hget h
    simp only [DeleteCurrency, hget] at h
    split at h
    · exact absurd h (by simp)
    · simp only [Prod.mk.injEq] at h
      obtain ⟨-, hw, -⟩ := h
      subst hw
      exact invalidateCache_clears w.cache cur.code

theorem writes_invalidate_cache_witness :
    cacheInvalidatedFor (World.mk [usd] []).cache usd.code :=
  (writes_invalidate_cache ⟨[], []⟩ usd "f" 5 "i" usd ⟨[usd], []⟩ ⟨[], []⟩ ⟨[], []⟩
    [Ev.storeOp "Create", Ev.cacheDel (codeCacheKey "USD"), Ev.cacheDel listCachePre]
    [] []).1 rfl

/-- C2: after a cache-miss round trip of the read by code (the trace shows
the store was hit), an immediately following read of the same code is served
from the cache: it returns the same currency, leaves the world unchanged,
and its trace holds a single cache read — no store operation. -/
theorem getByCode_second_read_cached (w : World) (code : String) (c : Currency)
    (w' : World) (evs : List Ev)
    (h : GetCurrencyByCode w code = (Except.ok c, w', evs))
    (hmiss : Ev.storeOp "GetByCode" ∈ evs) :
    GetCurrencyByCode w' code =
      (Except.ok c, w', [Ev.cacheRead (codeCacheKey code)]) := by
  have hFrom :
      (match Repo.getByCode w.store code with
        | Except.error e =>
          ((Except.error e : Except RepoErr Currency), w,
            [Ev.cacheRead (codeCacheKey code), Ev.storeOp "GetByCode"])
        | Except.ok currency =>
          (Except.ok currency,
            (⟨w.store,
              Cache.setKV w.cache (codeCacheKey code) (encodeCurrency currency)⟩ : World),
            [Ev.cacheRead (codeCacheKey code), Ev.storeOp "GetByCode",
             Ev.cacheWrite (codeCacheKey code)])) = (Except.ok c, w', evs) →
      GetCurrencyByCode w' code =
        (Except.ok c, w', [Ev.cacheRead (codeCacheKey code)]) := by
    intro hs
    cases hg : Repo.getByCode w.store code with
    | error e =>
      rw [hg] at hs
      exact absurd hs (by simp)
    | ok cur =>
      rw [hg] at hs
      simp only [Prod.mk.injEq, Except.ok.injEq] at hs
      obtain ⟨hc, hw, -⟩ := hs
      subst hc
      subst hw
      unfold GetCurrencyByCode
      simp [Cache.lookup_setKV_same, decode_encode_currency]
  simp only [GetCurrencyByCode, cacheCurrency] at h
  cases hl : Cache.lookup w.cache (codeCacheKey code) with
  | some payload =>
    simp only [hl] at h
    cases hd : decodeCurrency payload with
    | some cur =>
      simp only [hd, Prod.mk.injEq] at h
      obtain ⟨-, -, hevs⟩ := h
      rw [← hevs] at hmiss
      exact absurd hmiss (by simp)
    | none =>
      simp only [hd] at h
      exact hFrom h
  | none =>
    simp only [hl] at h
    exact hFrom h

theorem getByCode_second_read_cached_witness :
    GetCurrencyByCode ⟨[usd], [(codeCacheKey "USD", encodeCurrency usd)]⟩ "USD" =
      (Except.ok usd, ⟨[usd], [(codeCacheKey "USD", encodeCurrency usd)]⟩,
        [Ev.cacheRead (codeCacheKey "USD")]) :=
  getByCode_second_read_cached ⟨[usd], []⟩ "USD" usd
    ⟨[usd], [(codeCacheKey "USD", encodeCurrency usd)]⟩
    [Ev.cacheRead (codeCacheKey "USD"), Ev.storeOp "GetByCode",
     Ev.cacheWrite (codeCacheKey "USD")] rfl (by simp)

/-- C3: the read by code is cache-aside: a decodable cache hit is returned
with no store call and no state change; on a miss or a decode failure the
record is fetched from the Record Access Layer and, when found, written to
the cache; a repository error (NotFound included) is propagated unchanged
and nothing is written to the cache. -/
theorem getByCode_cache_aside (w : World) (code : String) (payload : Json)
    (c : Currency) (e : RepoErr) :
    (Cache.lookup w.cache (codeCacheKey code) = some payload →
      decodeCurrency payload = some c →
      GetCurrencyByCode w code = (Except.ok c, w, [Ev.cacheRead (codeCacheKey code)])) ∧
    (Cache.lookup w.cache (codeCacheKey code) = none ∨
        (Cache.lookup w.cache (codeCacheKey code) = some payload ∧
          decodeCurrency payload = none) →
      (Repo.getByCode w.store code = Except.ok c →
        GetCurrencyByCode w code =
          (Except.ok c,
            ⟨w.store, Cache.setKV w.cache (codeCacheKey code) (encodeCurrency c)⟩,
            [Ev.cacheRead (codeCacheKey code), Ev.storeOp "GetByCode",
             Ev.cacheWrite (codeCacheKey code)])) ∧
      (Repo.getByCode w.store code = Except.error e →
        GetCurrencyByCode w code =
          (Except.error e, w,
            [Ev.cacheRead (codeCacheKey code), Ev.storeOp "GetByCode"]))) := by
  constructor
  · intro hl hd
    simp [GetCurrencyByCode, cacheCurrency, hl, hd]
  · intro hm
    constructor
    · intro hg
      rcases hm with hl | ⟨hl, hd⟩
      · simp [GetCurrencyByCode, cacheCurrency, hl, hg]
      · simp [GetCurrencyByCode, cacheCurrency, hl, hd, hg]
    · intro hg
      rcases hm with hl | ⟨hl, hd⟩
      · simp [GetCurrencyByCode, cacheCurrency, hl, hg]
      · simp [GetCurrencyByCode, cacheCurrency, hl, hd, hg]

theorem getByCode_cache_aside_witness :
    GetCurrencyByCode ⟨[], [(codeCacheKey "USD", encodeCurrency usd)]⟩ "USD" =
      (Except.ok usd, ⟨[], [(codeCacheKey "USD", encodeCurrency usd)]⟩,
        [Ev.cacheRead (codeCacheKey "USD")]) :=
  (getByCode_cache_aside ⟨[], [(codeCacheKey "USD", encodeCurrency usd)]⟩ "USD"
    (encodeCurrency usd) usd RepoErr.notFound).1 rfl rfl

/-- C4: the paginated list read touches its list cache key exactly when
`offset == 0` and `limit <= 100`; for every other pair it is a direct pass
to the Record Access Layer that leaves the world unchanged and performs no
cache read and no cache write. -/
theorem getAll_cache_eligibility (w : World) (limit offsetArg : Int) :
    ((Ev.cacheRead (listCacheKey limit offsetArg) ∈
        (GetAllCurrencies w limit offsetArg).2.2 ∨
      Ev.cacheWrite (listCacheKey limit offsetArg) ∈
        (GetAllCurrencies w limit offsetArg).2.2) ↔
      (offsetArg = 0 ∧ limit ≤ 100)) ∧
    (¬ (offsetArg = 0 ∧ limit ≤ 100) →
      GetAllCurrencies w limit offsetArg =
        (Except.ok (Repo.getAll w.store limit offsetArg), w, [Ev.storeOp "GetAll"])) := by
  by_cases he : offsetArg = 0 ∧ limit ≤ 100
  · refine ⟨⟨fun _ => he, fun _ => ?_⟩, fun hne => absurd he hne⟩
    simp only [GetAllCurrencies, if_pos he]
    cases hl : Cache.lookup w.cache (listCacheKey limit offsetArg) with
    | some payload =>
      simp only [hl]
      cases hd : decodeCurrencyList payload with
      | some cs => simp [hd]
      | none => simp [hd]
    | none => simp [hl]
  · refine ⟨⟨fun hmem => ?_, fun h => absurd h he⟩, fun _ => ?_⟩
    · exfalso
      simp only [GetAllCurrencies, if_neg he] at hmem
      rcases hmem with hmem | hmem <;> simp at hmem
    · simp only [GetAllCurrencies, if_neg he]

theorem getAll_cache_eligibility_witness :
    GetAllCurrencies ⟨[], []⟩ 50 10 =
      (Except.ok (Repo.getAll [] 50 10), ⟨[], []⟩, [Ev.storeOp "GetAll"]) :=
  (getAll_cache_eligibility ⟨[], []⟩ 50 10).2 (by decide)

/-- C6 counterexample: a store failure during the read-by-code request is
answered 404 by the handler, not the 500 the claim requires. -/
theorem handler_get_storeError_cex :
    handlerGetByCodeStatus "USD" (Except.error RepoErr.storeError) = 404 ∧
    handlerGetByCodeStatus "USD" (Except.error RepoErr.storeError) ≠ 500 := by
  constructor
  · rfl
  · intro hc
    rw [show handlerGetByCodeStatus "USD" (Except.error RepoErr.storeError) = 404
      from rfl] at hc
    exact absurd hc (by decide)

/-- C6 amended: the handler's status mapping is per endpoint, not per error
kind. Read by code answers 404 for every service error (store failures
included) and 200 on success. Update answers 400 on a binding failure, 404
when the pre-fetch fails, 500 for every update error (validation included),
200 on success. Delete answers 404 when the pre-fetch fails, 500 when the
delete fails. Create answers 400 on a binding failure, 409 when the error
text contains "duplicate", 500 for every other error. -/
theorem handler_status_mapping (codeParam : String) (e : RepoErr) (se : SvcErr)
    (msg : String) (c : Currency) (hlen : (strToUpper codeParam).length = 3) :
    handlerGetByCodeStatus codeParam (Except.error e) = 404 ∧
    handlerGetByCodeStatus codeParam (Except.ok c) = 200 ∧
    handlerUpdateStatus codeParam false (Except.ok c) (Except.ok ()) = 400 ∧
    handlerUpdateStatus codeParam true (Except.error e) (Except.ok ()) = 404 ∧
    handlerUpdateStatus codeParam true (Except.ok c) (Except.error se) = 500 ∧
    handlerUpdateStatus codeParam true (Except.ok c) (Except.ok ()) = 200 ∧
    handlerDeleteStatus codeParam (Except.error e) (Except.ok ()) = 404 ∧
    handlerDeleteStatus codeParam (Except.ok c) (Except.error se) = 500 ∧
    (containsSub msg "duplicate" = true →
      handlerCreateStatus true (Except.error msg) = 409) ∧
    (containsSub msg "duplicate" = false →
      handlerCreateStatus true (Except.error msg) = 500) ∧
    handlerCreateStatus false (Except.error msg) = 400 :=
  ⟨by simp [handlerGetByCodeStatus, hlen],
   by simp [handlerGetByCodeStatus, hlen],
   by simp [handlerUpdateStatus, hlen],
   by simp [handlerUpdateStatus, hlen],
   by simp [handlerUpdateStatus, hlen],
   by simp [handlerUpdateStatus, hlen],
   by simp [handlerDeleteStatus, hlen],
   by simp [handlerDeleteStatus, hlen],
   fun h => by simp [handlerCreateStatus, h],
   fun h => by simp [handlerCreateStatus, h],
   by simp [handlerCreateStatus]⟩

theorem handler_status_mapping_witness :
    handlerGetByCodeStatus "usd" (Except.error RepoErr.storeError) = 404 :=
  (handler_status_mapping "usd" RepoErr.storeError (SvcErr.repo RepoErr.storeError)
    "duplicate key value" usd rfl).1

/-- C8: a valid create stores exactly one new record whose `factor`,
`amount_display_format` and `created_by` get the documented defaults when
unset and are kept verbatim otherwise, and whose remaining client fields are
stored unchanged. -/
theorem create_applies_defaults (w : World) (c : Currency) (freshId : UUID) (now : Int)
    (hcode : c.code ≠ "") (hdesc : c.description ≠ "")
    (hdup : codeExists w.store c.code = false) :
    ∃ r, CreateCurrency w c freshId now =
        (Except.ok (), ⟨w.store ++ [r], (invalidateCache w.cache c.code).1⟩,
          Ev.storeOp "Create" :: (invalidateCache w.cache c.code).2) ∧
      r.code = c.code ∧
      r.description = c.description ∧
      r.htmlEncodedSymbol = c.htmlEncodedSymbol ∧
      r.factor = (if c.factor = 0 then 100 else c.factor) ∧
      r.amountDisplayFormat =
        (if c.amountDisplayFormat = "" then "###,###.##" else c.amountDisplayFormat) ∧
      r.createdBy = (if c.createdBy = uuidNil then defaultCreatedBy else c.createdBy) := by
  refine ⟨gormNewRecord (applyCreateDefaults c) freshId now, ?_, ?_, ?_, ?_, ?_, ?_, ?_⟩
  · simp [CreateCurrency, Repo.create, applyCreateDefaults_code, hdup, hcode, hdesc]
  · simp [gormNewRecord, applyCreateDefaults_eq]
  · simp [gormNewRecord, applyCreateDefaults_eq]
  · simp [gormNewRecord, applyCreateDefaults_eq]
  · simp [gormNewRecord, applyCreateDefaults_eq]
  · simp [gormNewRecord, applyCreateDefaults_eq]
  · simp [gormNewRecord, applyCreateDefaults_eq]

theorem create_applies_defaults_witness :
    ∃ r, CreateCurrency ⟨[], []⟩ newCur "33333333-3333-3333-3333-333333333333" 7 =
        (Except.ok (), ⟨[r], (invalidateCache [] newCur.code).1⟩,
          Ev.storeOp "Create" :: (invalidateCache [] newCur.code).2) ∧
      r.factor = 100 ∧ r.amountDisplayFormat = "###,###.##" ∧
      r.createdBy = defaultCreatedBy := by
  obtain ⟨r, h1, -, -, -, h5, h6, h7⟩ :=
    create_applies_defaults ⟨[], []⟩ newCur "33333333-3333-3333-3333-333333333333" 7
      (by decide) (by decide) rfl
  exact ⟨r, h1, by simpa using h5, by simpa using h6, by simpa using h7⟩

/-! ## Batch atomicity lemmas -/

theorem gormNewRecord_code (c : Currency) (freshId : UUID) (now : Int) :
    (gormNewRecord c freshId now).code = c.code := rfl

theorem codeExists_of_mem {store : List Currency} {r : Currency} {code : String}
    (hr : r ∈ store) (hcode : r.code = code) : codeExists store code = true := by
  simp only [codeExists, List.any_eq_true]
  exact ⟨r, hr, by simp [hcode]⟩

theorem codeExists_append (store extra : List Currency) (code : String)
    (h : codeExists store code = true) : codeExists (store ++ extra) code = true := by
  simp only [codeExists, List.any_eq_true] at h ⊢
  obtain ⟨r, hr, hc⟩ := h
  exact ⟨r, List.mem_append_left extra hr, hc⟩

theorem create_ok_inv {store store1 : List Currency} {c : Currency} {freshId : UUID}
    {now : Int} (hc : Repo.create store c freshId now = Except.ok store1) :
    codeExists store c.code = false ∧
      store1 = store ++ [gormNewRecord c freshId now] := by
  simp only [Repo.create] at hc
  by_cases hd : codeExists store c.code = true
  · simp [hd] at hc
  · have hf : codeExists store c.code = false := by simpa using hd
    refine ⟨hf, ?_⟩
    simp only [hf, Bool.false_eq_true, if_false, Except.ok.injEq] at hc
    exact hc.symm

theorem createBatchTx_mono (cs : List Currency) :
    ∀ store fresh now s', Repo.createBatchTx store cs fresh now = Except.ok s' →
      ∀ r ∈ store, r ∈ s' := by
  induction cs with
  | nil =>
    intro store fresh now s' h r hr
    simp only [Repo.createBatchTx, Except.ok.injEq] at h
    exact h ▸ hr
  | cons c rest ih =>
    intro store fresh now s' h r hr
    simp only [Repo.createBatchTx] at h
    cases hc : Repo.create store c (fresh 0) now with
    | error e =>
      simp only [hc] at h
      exact absurd h (by simp)
    | ok store1 =>
      simp only [hc] at h
      obtain ⟨-, hs1⟩ := create_ok_inv hc
      exact ih store1 _ now s' h r (hs1 ▸ List.mem_append_left _ hr)

theorem createBatchTx_mem (cs : List Currency) :
    ∀ store fresh now s', Repo.createBatchTx store cs fresh now = Except.ok s' →
      ∀ c ∈ cs, codeExists s' c.code = true := by
  induction cs with
  | nil =>
    intro store fresh now s' _ c hc
    exact absurd hc (by simp)
  | cons c0 rest ih =>
    intro store fresh now s' h x hx
    simp only [Repo.createBatchTx] at h
    cases hc : Repo.create store c0 (fresh 0) now with
    | error e =>
      simp only [hc] at h
      exact absurd h (by simp)
    | ok store1 =>
      simp only [hc] at h
      obtain ⟨-, hs1⟩ := create_ok_inv hc
      rcases List.mem_cons.mp hx with rfl | hx'
      · have hg : gormNewRecord x (fresh 0) now ∈ store1 := by
          rw [hs1]
          simp
        exact codeExists_of_mem (createBatchTx_mono rest store1 _ now s' h _ hg)
          (gormNewRecord_code x (fresh 0) now)
      · exact ih store1 _ now s' h x hx'

theorem createBatchTx_dup (cs : List Currency) :
    ∀ store fresh now, (∃ c ∈ cs, codeExists store c.code = true) →
      ∀ s', Repo.createBatchTx store cs fresh now ≠ Except.ok s' := by
  induction cs with
  | nil =>
    intro store fresh now hex s'
    obtain ⟨c, hc, -⟩ := hex
    exact absurd hc (by simp)
  | cons c0 rest ih =>
    intro store fresh now hex s' h
    obtain ⟨x, hx, hdup⟩ := hex
    simp only [Repo.createBatchTx] at h
    cases hc : Repo.create store c0 (fresh 0) now with
    | error e =>
      simp only [hc] at h
      exact absurd h (by simp)
    | ok store1 =>
      simp only [hc] at h
      obtain ⟨hcf, hs1⟩ := create_ok_inv hc
      rcases List.mem_cons.mp hx with rfl | hx'
      · rw [hdup] at hcf
        exact absurd hcf (by simp)
      · have hm : codeExists store1 x.code = true := by
          rw [hs1]
          exact codeExists_append _ _ _ hdup
        exact ih store1 _ now ⟨x, hx', hm⟩ s' h

/-- C9: the batch insert is all-or-nothing: whenever it reports an error the
store is exactly what it was before the call (zero records persist), on
success every input record's code is present in the store, and a batch
holding a record whose code already exists never reports success. -/
theorem createBatch_all_or_nothing (store : List Currency) (cs : List Currency)
    (fresh : Nat → UUID) (now : Int) :
    (∀ e, (Repo.createBatch store cs fresh now).2 = some e →
      (Repo.createBatch store cs fresh now).1 = store) ∧
    ((Repo.createBatch store cs fresh now).2 = none →
      ∀ c ∈ cs, codeExists (Repo.createBatch store cs fresh now).1 c.code = true) ∧
    ((∃ c ∈ cs, codeExists store c.code = true) →
      (Repo.createBatch store cs fresh now).2 ≠ none) := by
  refine ⟨?_, ?_, ?_⟩
  · intro e h
    cases cs with
    | nil => simp [Repo.createBatch] at h
    | cons c0 rest =>
      simp only [Repo.createBatch] at h ⊢
      cases ht : Repo.createBatchTx store (c0 :: rest) fresh now with
      | ok s' => simp [ht] at h
      | error e' => simp [ht]
  · intro h c hc
    cases cs with
    | nil => exact absurd hc (by simp)
    | cons c0 rest =>
      simp only [Repo.createBatch] at h ⊢
      cases ht : Repo.createBatchTx store (c0 :: rest) fresh now with
      | ok s' =>
        simp only [ht]
        exact createBatchTx_mem (c0 :: rest) store fresh now s' ht c hc
      | error e' => simp [ht] at h
  · intro hex h
    cases cs with
    | nil =>
      obtain ⟨x, hx, -⟩ := hex
      exact absurd hx (by simp)
    | cons c0 rest =>
      simp only [Repo.createBatch] at h
      cases ht : Repo.createBatchTx store (c0 :: rest) fresh now with
      | ok s' => exact createBatchTx_dup (c0 :: rest) store fresh now hex s' ht
      | error e' => simp [ht] at h

theorem createBatch_all_or_nothing_witness :
    (Repo.createBatch [usd] [usd] (fun _ => "f") 5).1 = [usd] :=
  (createBatch_all_or_nothing [usd] [usd] (fun _ => "f") 5).1 RepoErr.conflict rfl

end CurrencyApi
